import Mathlib

/-!
# Verification of the ingestion pipeline

A shallow embedding of the document-ingestion pipeline
(`ingest/pipeline_ingest.py`, `ingest/vector_store/elastic_search.py`,
`ingest/splitter/text_splitter.py`) together with proofs of the specified
properties.

External collaborators (the PDF page reader, the recursive text splitter,
the embedding model, the Elasticsearch backend, the filesystem and the
process environment) are modelled as explicit parameters: e.g. a PDF file
is represented by the list of its pages' `extract_text()` results, a call
that may raise is represented by an `Except String` value, and `os.getenv`
is a record of `Option String` fields.
-/

namespace Ingest

/-- A value stored in a fragment's metadata dict (the code only ever stores
the source path string and integer page/item indices). -/
inductive MVal
  | str (s : String)
  | nat (n : Nat)
deriving DecidableEq, Repr

/-- A metadata dict, as the association list of its entries in insertion
order (the Python dict literals in the loaders have no duplicate keys). -/
abbrev Meta := List (String × MVal)

/-- A `(text, metadata)` pair as produced by the loaders. -/
abbrev Fragment := String × Meta

/-- Python's `str.strip()`: the character sequence with leading and
trailing whitespace removed.  `if text.strip():` is modelled as
`pyStrip text ≠ []`. -/
def pyStrip (s : String) : List Char :=
  ((s.data.dropWhile Char.isWhitespace).reverse.dropWhile Char.isWhitespace).reverse

/-- Python's `str.lower()` on a character sequence. -/
def pyLower (s : List Char) : List Char := s.map Char.toLower

/-- Python's `str.split(sep)` for a one-character separator (always yields
at least one, possibly empty, piece). -/
def splitOnChar (sep : Char) : List Char → List (List Char)
  | [] => [[]]
  | c :: rest =>
      let r := splitOnChar sep rest
      if c = sep then [] :: r
      else (c :: r.headD []) :: r.tail

/-- `pathlib.Path(p).suffix`: in the final path component, the part from
the last dot on, provided that dot is neither the component's first nor
last character (so `.bashrc` and `a.` have no suffix). -/
def pathSuffix (p : String) : List Char :=
  let name := (splitOnChar '/' p.data).getLastD []
  let rev := name.reverse
  match rev.findIdx? (· = '.') with
  | none => []
  | some j =>
      if 0 < j ∧ j < name.length - 1 then '.' :: (rev.take j).reverse
      else []

/-- Python's `int()` on a decimal string (raises — `none` — on anything
else; signs, spaces and underscores are not needed by any claim). -/
def pyParseNat (s : List Char) : Option Nat :=
  if s ≠ [] ∧ s.all Char.isDigit then
    some (s.foldl (fun n c => n * 10 + (c.toNat - 48)) 0)
  else none

/-- `pipeline_ingest.py`, `read_pdf` (lines 27-34).  The file is represented
by the list of its pages in order; each page is the result of
`page.extract_text()` (`none` models a page for which extraction returns
`None`, which the code replaces by `""`). -/
def read_pdf (file_path : String) (pages : List (Option String)) : List Fragment :=
  pages.enum.filterMap fun p =>
    let text := p.2.getD ""
    if pyStrip text ≠ [] then
      some (text, [("source", MVal.str file_path), ("page", MVal.nat (p.1 + 1))])
    else none

/-- `pipeline_ingest.py`, `read_txt` (lines 36-38).  `text` is the result of
`file_path.read_text(encoding="utf-8", errors="ignore")`. -/
def read_txt (file_path : String) (text : String) : List Fragment :=
  if pyStrip text ≠ [] then [(text, [("source", MVal.str file_path)])] else []

/-- The parsed top-level JSON value, abstracted to what `read_json` inspects:
either a list — each element represented by its `json.dumps(obj,
ensure_ascii=False)` result, `none` when serialization raises — or any
non-list value, represented directly by its `json.dumps` output. -/
inductive JsonData
  | arr (elems : List (Option String))
  | other (text : String)
deriving Repr

/-- `pipeline_ingest.py`, `read_json` (lines 40-58).  `parsed` is the
combined outcome of `file_path.read_text(...)` followed by `json.loads`:
`.error msg` models an exception raised by either call (both are inside the
`try`, so the function returns `[]`). -/
def read_json (file_path : String) (parsed : Except String JsonData) : List Fragment :=
  match parsed with
  | .error _ => []
  | .ok (.arr elems) =>
      elems.enum.filterMap fun p =>
        match p.2 with
        | some text =>
            if pyStrip text ≠ [] then
              some (text, [("source", MVal.str file_path), ("item", MVal.nat p.1)])
            else none
        | none => none
  | .ok (.other text) =>
      if pyStrip text ≠ [] then [(text, [("source", MVal.str file_path)])] else []

/-- `pipeline_ingest.py`, `batched` (lines 17-19): yields
`seq[i : i + size]` for `i = 0, size, 2*size, ...`.  (For `size = 0` the
Python `range(0, len(seq), 0)` raises `ValueError`; the model returns `[]`
there and every theorem about `batched` assumes `0 < size`.) -/
def batched (seq : List α) (size : Nat) : List (List α) :=
  if seq.isEmpty ∨ size = 0 then []
  else seq.take size :: batched (seq.drop size) size
termination_by seq.length
decreasing_by
  rename_i h
  simp only [not_or, List.isEmpty_iff] at h
  have h1 : 0 < size := Nat.pos_of_ne_zero h.2
  have h3 : 0 < seq.length := List.length_pos.mpr h.1
  simp only [List.length_drop]
  omega

/-- One directory entry of `base.iterdir()`: its name and whether
`p.is_dir()` holds. -/
structure DirEntry where
  name : String
  isDir : Bool
deriving DecidableEq, Repr

/-- `pipeline_ingest.py`, `list_overlay_dirs` (lines 21-23):
`sorted([p for p in base.iterdir() if p.is_dir()])`.  All entries share the
base directory, so Python's path ordering is the lexicographic order of the
entry names; `sorted` is modelled by the stable `insertionSort`. -/
def list_overlay_dirs (entries : List DirEntry) : List String :=
  List.insertionSort (· ≤ ·) ((entries.filter (·.isDir)).map (·.name))

/-- One filesystem object yielded by `dir_path.rglob("*")`, together with
the outcome each loader's underlying reads would have on it: `pdfRead`
models `PdfReader(...)` plus per-page `extract_text()` (`.error` when any
of that raises), `textRead` models `read_text(encoding="utf-8",
errors="ignore")` (`.error` when the I/O raises), and `jsonRead` models
`read_text` followed by `json.loads` (`.error` when either raises — see
`read_json`).  Only the field selected by the path's suffix is ever
consulted. -/
structure SrcFile where
  path : String
  isFile : Bool
  pdfRead : Except String (List (Option String)) := .error ""
  textRead : Except String String := .error ""
  jsonRead : Except String JsonData := .error ""

/-- The `[WARN]` line printed by `load_documents` when a loader raises. -/
def warnLine (path msg : String) : String :=
  "[WARN] Falha ao ler " ++ path ++ ": " ++ msg

/-- The body of `load_documents`' `for` loop for one file (lines 65-77):
the fragments the file contributes and the warnings printed for it.  A
suffix other than `.pdf`/`.txt`/`.md`/`.json`, or a non-file entry,
contributes nothing. -/
def processFile (f : SrcFile) : List Fragment × List String :=
  if ¬ f.isFile then ([], [])
  else
    let sfx := pyLower (pathSuffix f.path)
    if sfx = ".pdf".data then
      match f.pdfRead with
      | .ok pages => (read_pdf f.path pages, [])
      | .error e => ([], [warnLine f.path e])
    else if sfx = ".txt".data ∨ sfx = ".md".data then
      match f.textRead with
      | .ok t => (read_txt f.path t, [])
      | .error e => ([], [warnLine f.path e])
    else if sfx = ".json".data then
      (read_json f.path f.jsonRead, [])
    else ([], [])

/-- `pipeline_ingest.py`, `load_documents` (lines 60-78).  `dirExists`
models `dir_path.exists()`; `files` is the `rglob("*")` enumeration in
order.  Returns the accumulated `pairs` list and the warnings printed. -/
def load_documents (dirExists : Bool) (files : List SrcFile) : List Fragment × List String :=
  if ¬ dirExists then ([], [])
  else
    match files with
    | [] => ([], [])
    | f :: fs =>
        let cur := processFile f
        let rest := load_documents true fs
        (cur.1 ++ rest.1, cur.2 ++ rest.2)

/-- The environment variables the pipeline reads (`os.getenv`); `none`
models an unset variable. -/
structure Env where
  DATA_BASE_DIR : Option String := none
  BATCH_SIZE : Option String := none
  ES_INDEX : Option String := none
  ES_URL : Option String := none
  ES_USER : Option String := none
  ES_PASS : Option String := none
  ES_VERIFY : Option String := none
  ES_CA_PATH : Option String := none
  ES_CA_BASE64 : Option String := none

/-- Python truthiness of an `Optional[str]`: `not x` holds exactly for
`None` and `""`. -/
def strFalsy (o : Option String) : Bool := o.getD "" = ""

/-- The pieces of the outside world `_resolve_tls_kwargs` touches:
`os.path.exists`, whether `base64.b64decode` + the temp-file write succeed
for a given input, and the name of the `NamedTemporaryFile`. -/
structure TlsExternal where
  pathExists : String → Bool
  b64DecodeOk : String → Bool
  tmpName : String

/-- The keyword arguments `_resolve_tls_kwargs` returns (absent dict keys
are `none`). -/
structure TlsKwargs where
  verify_certs : Bool
  ssl_show_warn : Option Bool := none
  ca_certs : Option String := none
deriving DecidableEq, Repr

/-- `elastic_search.py`, `_resolve_tls_kwargs` (lines 11-36). -/
def _resolve_tls_kwargs (env : Env) (ext : TlsExternal) : TlsKwargs :=
  let verify := pyLower (env.ES_VERIFY.getD "false").data = "true".data
  let ca_path := env.ES_CA_PATH
  let ca_b64 := env.ES_CA_BASE64
  if ¬ verify then
    { verify_certs := false, ssl_show_warn := some true }
  else if ¬ strFalsy ca_path ∧ ext.pathExists (ca_path.getD "") then
    { verify_certs := true, ca_certs := some (ca_path.getD "") }
  else if ¬ strFalsy ca_b64 then
    if ext.b64DecodeOk (ca_b64.getD "") then
      { verify_certs := true, ca_certs := some ext.tmpName }
    else
      { verify_certs := true }
  else
    { verify_certs := true }

/-- The `Elasticsearch(...)` client value as constructed by
`create_es_client`: the arguments that were passed to the constructor. -/
structure EsClient where
  hosts : List String
  basic_auth : String × String
  request_timeout : Nat
  tls : TlsKwargs
deriving DecidableEq, Repr

/-- `elastic_search.py`, `create_es_client` (lines 39-56).  `.error` models
the `raise RuntimeError`. -/
def create_es_client (env : Env) (ext : TlsExternal) : Except String EsClient :=
  let url := env.ES_URL
  let user := env.ES_USER
  let pwd := env.ES_PASS
  if strFalsy url ∨ strFalsy user ∨ strFalsy pwd then
    .error "ES_URL/ES_USER/ES_PASS não configurados na .env"
  else
    .ok { hosts := [url.getD ""]
          basic_auth := (user.getD "", pwd.getD "")
          request_timeout := 60
          tls := _resolve_tls_kwargs env ext }

/-- `elastic_search.py`, `create_vector_store` (lines 64-74), reduced to
the data that matters here: the index name the returned
`ElasticsearchStore` is bound to.  It is read from `ES_INDEX` with default
`"your_index_name"`; the function takes exactly two parameters,
`es_client` and `embeddings` (neither influences the bound index name). -/
def create_vector_store (env : Env) : String × String :=
  let index_name := env.ES_INDEX.getD "your_index_name"
  (index_name, index_name)

/-- Number of parameters in the `def create_vector_store(es_client,
embeddings)` signature, `elastic_search.py` lines 64-67. -/
def create_vector_store_paramCount : Nat := 2

/-- Number of positional arguments at the call
`create_vector_store(es_client, embeddings, index_name)`,
`pipeline_ingest.py` line 134. -/
def main_call_argCount : Nat := 3

/-- The call `create_vector_store(es_client, embeddings, index_name)` as
executed by `main`: Python raises `TypeError` when the argument count does
not match the parameter count, otherwise the function body runs.  Returns
the index name the store is bound to. -/
def callCreateVectorStore (env : Env) : Except String String :=
  if main_call_argCount = create_vector_store_paramCount then
    .ok (create_vector_store env).1
  else
    .error "TypeError: create_vector_store() takes 2 positional arguments but 3 were given"

/-- The chunking loop of `main` (lines 123-128): for every `(text, meta)`
pair in order, every chunk of `splitter.split_text(text)` is appended to
`texts` and the pair's `meta` to `metas`.  `split` is the external
`RecursiveCharacterTextSplitter.split_text`. -/
def chunkPhase (split : String → List String) (pairs : List Fragment) :
    List String × List Meta :=
  pairs.foldl
    (fun acc tm => (acc.1 ++ split tm.1, acc.2 ++ (split tm.1).map fun _ => tm.2))
    ([], [])

/-- One iteration of the batch-insert loop: the `add_texts` call's
arguments, the cumulative `inserted` counter after the call, and whether
the progress line was printed. -/
structure InsertStep where
  t_batch : List String
  m_batch : List Meta
  insertedAfter : Nat
  printed : Bool
deriving DecidableEq, Repr

/-- The `for t_batch, m_batch in zip(...)` loop of `main` (lines 137-142),
running over the zipped batch list with the `inserted` accumulator:
`inserted += len(t_batch)`, and the progress line is printed when
`inserted % (batch_size * 5) == 0 or inserted == total`. -/
def ingestLoop (total b : Nat) :
    List (List String × List Meta) → Nat → List InsertStep
  | [], _ => []
  | tm :: rest, inserted =>
      let ins := inserted + tm.1.length
      { t_batch := tm.1, m_batch := tm.2, insertedAfter := ins,
        printed := (ins % (b * 5) = 0) ∨ (ins = total) : InsertStep } ::
        ingestLoop total b rest ins

/-- Lines 136-142 of `main` for one target: batch `texts` and `metas` with
the configured size, zip them, and run the insert loop. -/
def ingestBatches (texts : List String) (metas : List Meta) (b : Nat) :
    List InsertStep :=
  ingestLoop texts.length b ((batched texts b).zip (batched metas b)) 0

/-- Everything `main` does that is visible outside the process: the
`add_texts` calls in order, each tagged with the index name the store was
bound to; the `indices.refresh` calls; and the informational messages. -/
structure RunLog where
  inserts : List (String × List String × List Meta) := []
  refreshes : List String := []
  messages : List String := []
deriving Repr

/-- The `RunLog` of a run that found no overlays. -/
def noOverlaysRun : RunLog :=
  { inserts := [], refreshes := []
    messages := ["Nenhum overlay encontrado. Crie subpastas (ex.: hipoteses, diretrizes)."] }

/-- The world `main` runs in: the environment, the base directory
(existence and `iterdir()` entries), each overlay's `rglob` file listing
(by overlay name), the external text splitter, and the TLS externals. -/
structure World where
  env : Env
  baseDirExists : Bool
  baseEntries : List DirEntry
  overlayFiles : String → List SrcFile
  split : String → List String
  tls : TlsExternal

/-- The per-overlay loop of `main` (lines 111-145).  For each overlay, in
order: load documents; skip when nothing was loaded; otherwise chunk, call
`create_vector_store(es_client, embeddings, index_name)` — which raises
`TypeError`, see `callCreateVectorStore` — then run the batch-insert loop
and refresh the index. -/
def processOverlays (w : World) (bs : Nat) : List String → RunLog → Except String RunLog
  | [], log => .ok log
  | name :: rest, log =>
      let pairs := (load_documents true (w.overlayFiles name)).1
      if pairs.isEmpty then
        processOverlays w bs rest
          { log with messages := log.messages ++ ["Nada para ingerir; pulando..."] }
      else
        let tm := chunkPhase w.split pairs
        match callCreateVectorStore w.env with
        | .error e => .error e
        | .ok boundIndex =>
            let steps := ingestBatches tm.1 tm.2 bs
            processOverlays w bs rest
              { log with
                inserts := log.inserts ++ steps.map fun s => (boundIndex, s.t_batch, s.m_batch)
                refreshes := log.refreshes ++ [name] }

/-- `pipeline_ingest.py`, `main` (lines 82-147).  `.error` models an
uncaught exception; the early `return` for "no overlays" is an `.ok` with
no inserts.  (`BATCH_SIZE` is parsed with `int(...)`, which raises on a
non-numeric string; `es_client.info()` is inside a `try` and only prints,
so it is not modelled.) -/
def main (w : World) : Except String RunLog :=
  match pyParseNat (w.env.BATCH_SIZE.getD "128").data with
  | none => .error "ValueError: invalid literal for int()"
  | some bs =>
      if ¬ w.baseDirExists then
        .error "FileNotFoundError: Base de dados não existe"
      else
        let overlay_dirs := list_overlay_dirs w.baseEntries
        if overlay_dirs.isEmpty then
          .ok { messages := ["Nenhum overlay encontrado. Crie subpastas (ex.: hipoteses, diretrizes)."] }
        else
          match create_es_client w.env w.tls with
          | .error e => .error e
          | .ok _client => processOverlays w bs overlay_dirs {}

/-- The chunk list with provenance: each chunk paired with the metadata of
the fragment it was cut from.  `chunkPhase` produces exactly the two
projections of this list (proved below). -/
def chunkPairs (split : String → List String) (pairs : List Fragment) : List Fragment :=
  pairs.flatMap fun tm => (split tm.1).map fun c => (c, tm.2)

/-- Whether processing this file in `load_documents` encounters a raised
exception: the dispatched loader's underlying read fails.  (For `.json`
files the exception is raised inside `read_json`'s own `try`.) -/
def loaderRaises (f : SrcFile) : Bool :=
  f.isFile ∧
    (let sfx := pyLower (pathSuffix f.path)
     (sfx = ".pdf".data ∧ f.pdfRead.isOk = false) ∨
     ((sfx = ".txt".data ∨ sfx = ".md".data) ∧ f.textRead.isOk = false) ∨
     (sfx = ".json".data ∧ f.jsonRead.isOk = false))

/-- A `.json` file whose `read_text` raises (e.g. an `OSError` for a
permission failure): the exception is caught by `read_json`'s `try`, so
`load_documents` sees an empty fragment list and prints nothing. -/
def badJsonFile : SrcFile :=
  { path := "data/notes/a.json", isFile := true
    jsonRead := .error "OSError: permission denied" }

/-- A healthy `.txt` file, used alongside `badJsonFile`. -/
def helloTxtFile : SrcFile :=
  { path := "data/notes/hello.txt", isFile := true
    textRead := .ok "hello world" }

/-- A `.pdf` file whose `PdfReader` raises. -/
def badPdfFile : SrcFile :=
  { path := "data/notes/broken.pdf", isFile := true
    pdfRead := .error "PdfReadError: EOF marker not found" }

/-- A concrete world exercising the multi-index path: credentials set,
one overlay `notes` containing one readable `.txt` file. -/
def c1World : World :=
  { env := { ES_URL := some "https://es.example:9200"
             ES_USER := some "elastic", ES_PASS := some "pw" }
    baseDirExists := true
    baseEntries := [{ name := "notes", isDir := true }]
    overlayFiles := fun _ => [helloTxtFile]
    split := fun t => [t]
    tls := { pathExists := fun _ => false, b64DecodeOk := fun _ => false
             tmpName := "/tmp/ca.pem" } }

/-- `c1World` with an empty base directory (no subdirectories). -/
def emptyBaseWorld : World :=
  { c1World with baseEntries := [] }

/-- `c1World` with a missing base directory. -/
def missingBaseWorld : World :=
  { c1World with baseDirExists := false }

/-! ## Lemmas about `batched` -/

theorem batched_unfold (seq : List α) (b : Nat) :
    batched seq b =
      if seq.isEmpty ∨ b = 0 then [] else seq.take b :: batched (seq.drop b) b := by
  rw [batched]

theorem batched_nil (b : Nat) : batched ([] : List α) b = [] := by
  rw [batched_unfold]; simp

theorem batched_zero (seq : List α) : batched seq 0 = [] := by
  rw [batched_unfold]; simp

theorem batched_cons (seq : List α) (b : Nat) (hs : seq ≠ []) (hb : 0 < b) :
    batched seq b = seq.take b :: batched (seq.drop b) b := by
  rw [batched_unfold]
  simp [List.isEmpty_iff, hs, Nat.pos_iff_ne_zero.mp hb]

theorem batched_flatten (b : Nat) (hb : 0 < b) (seq : List α) :
    (batched seq b).flatten = seq := by
  generalize hn : seq.length = n
  induction n using Nat.strong_induction_on generalizing seq with
  | _ n ih =>
    rcases eq_or_ne seq [] with rfl | hs
    · simp [batched_nil]
    · rw [batched_cons seq b hs hb, List.flatten_cons,
        ih (seq.drop b).length ?_ _ rfl, List.take_append_drop]
      have : 0 < seq.length := List.length_pos.mpr hs
      simp only [List.length_drop]
      omega

theorem batched_ne_nil (b : Nat) (hb : 0 < b) (seq : List α) (hs : seq ≠ []) :
    batched seq b ≠ [] := by
  rw [batched_cons seq b hs hb]
  exact List.cons_ne_nil _ _

theorem batched_dropLast_length (b : Nat) (hb : 0 < b) (seq : List α) :
    ∀ batch ∈ (batched seq b).dropLast, batch.length = b := by
  generalize hn : seq.length = n
  induction n using Nat.strong_induction_on generalizing seq with
  | _ n ih =>
    rcases eq_or_ne seq [] with rfl | hs
    · simp [batched_nil]
    · rw [batched_cons seq b hs hb]
      rcases eq_or_ne (seq.drop b) [] with hd | hd
      · simp [hd, batched_nil]
      · have hrec := batched_ne_nil b hb (seq.drop b) hd
        rcases hx : batched (seq.drop b) b with _ | ⟨y, ys⟩
        · exact absurd hx hrec
        · intro batch hbatch
          rw [List.dropLast_cons₂] at hbatch
          rcases List.mem_cons.mp hbatch with rfl | htail
          · have hblen : b ≤ seq.length := by
              by_contra hlt
              exact hd (List.drop_eq_nil_of_le (le_of_not_le hlt))
            simp [List.length_take, Nat.min_eq_left hblen]
          · have := ih (seq.drop b).length ?_ _ rfl batch (hx ▸ htail)
            · exact this
            · have : 0 < seq.length := List.length_pos.mpr hs
              simp only [List.length_drop]
              omega

theorem batched_getLast (b : Nat) (hb : 0 < b) (seq : List α) :
    ∀ last, (batched seq b).getLast? = some last → last ≠ [] ∧ last.length ≤ b := by
  generalize hn : seq.length = n
  induction n using Nat.strong_induction_on generalizing seq with
  | _ n ih =>
    rcases eq_or_ne seq [] with rfl | hs
    · simp [batched_nil]
    · rw [batched_cons seq b hs hb]
      rcases eq_or_ne (seq.drop b) [] with hd | hd
      · have hlen : seq.length ≤ b := by
          by_contra hlt
          have : seq.drop b ≠ [] := by
            apply List.ne_nil_of_length_pos
            simp only [List.length_drop]
            omega
          exact this hd
        intro last hlast
        simp only [hd, batched_nil, List.getLast?_singleton, Option.some.injEq] at hlast
        subst hlast
        refine ⟨?_, by simp only [List.length_take]; omega⟩
        rw [List.take_of_length_le hlen]
        exact hs
      · intro last hlast
        have hne := batched_ne_nil b hb (seq.drop b) hd
        rcases hx : batched (seq.drop b) b with _ | ⟨y, ys⟩
        · exact absurd hx hne
        · rw [hx, List.getLast?_cons_cons] at hlast
          rw [← hx] at hlast
          refine ih (seq.drop b).length ?_ _ rfl last hlast
          have : 0 < seq.length := List.length_pos.mpr hs
          simp only [List.length_drop]
          omega

theorem batched_take_flatten (b : Nat) (hb : 0 < b) :
    ∀ (k : Nat) (seq : List α), ((batched seq b).take k).flatten = seq.take (k * b)
  | 0, seq => by simp
  | k + 1, seq => by
      rcases eq_or_ne seq [] with rfl | hs
      · simp [batched_nil]
      · rw [batched_cons seq b hs hb, List.take_succ_cons, List.flatten_cons,
          batched_take_flatten b hb k (seq.drop b)]
        rw [show (k + 1) * b = b + k * b by ring, List.take_add, List.take_drop]
termination_by _ seq => seq.length
decreasing_by
  have : 0 < seq.length := List.length_pos.mpr hs
  simp only [List.length_drop]
  omega

theorem batched_lt_length_iff (b : Nat) (hb : 0 < b) (seq : List α) (k : Nat) :
    k < (batched seq b).length ↔ k * b < seq.length := by
  generalize hn : seq.length = n
  induction n using Nat.strong_induction_on generalizing seq k with
  | _ n ih =>
    rcases eq_or_ne seq [] with rfl | hs
    · simp only [batched_nil, List.length_nil] at *
      omega
    · rw [batched_cons seq b hs hb]
      have hpos : 0 < seq.length := List.length_pos.mpr hs
      rcases k with _ | k
      · simpa using hn ▸ hpos
      · have hdrop : (seq.drop b).length = seq.length - b := List.length_drop b seq
        have hrec := ih (seq.drop b).length (by omega) (seq.drop b) k rfl
        have hmul : (k + 1) * b = k * b + b := Nat.succ_mul k b
        simp only [List.length_cons]
        omega

theorem batched_length_le (b : Nat) (hb : 0 < b) (seq : List α) (k : Nat)
    (hk : (batched seq b).length ≤ k) : seq.length ≤ k * b := by
  have := (batched_lt_length_iff b hb seq k).not
  simp only [not_lt] at this
  exact this.mp hk

theorem batched_map (f : α → β) (b : Nat) (seq : List α) :
    batched (seq.map f) b = (batched seq b).map (List.map f) := by
  generalize hn : seq.length = n
  induction n using Nat.strong_induction_on generalizing seq with
  | _ n ih =>
    rcases eq_or_ne b 0 with rfl | hb
    · simp [batched_zero]
    · rcases eq_or_ne seq [] with rfl | hs
      · simp [batched_nil]
      · have hpos : 0 < seq.length := List.length_pos.mpr hs
        have hms : seq.map f ≠ [] := by
          simp [List.map_eq_nil_iff, hs]
        rw [batched_cons seq b hs (Nat.pos_of_ne_zero hb),
          batched_cons (seq.map f) b hms (Nat.pos_of_ne_zero hb), List.map_cons,
          ← List.map_take, ← List.map_drop, ih (seq.drop b).length ?_ _ rfl]
        simp only [List.length_drop]
        omega

theorem batched_map_length_congr (b : Nat) (xs : List α) (ys : List β)
    (h : xs.length = ys.length) :
    (batched xs b).map List.length = (batched ys b).map List.length := by
  generalize hn : xs.length = n
  induction n using Nat.strong_induction_on generalizing xs ys with
  | _ n ih =>
    rcases eq_or_ne b 0 with rfl | hb
    · simp [batched_zero]
    · rcases eq_or_ne xs [] with rfl | hxs
      · have : ys = [] := List.length_eq_zero.mp (by simpa using h.symm)
        subst this
        simp [batched_nil]
      · have hys : ys ≠ [] := by
          apply List.ne_nil_of_length_pos
          rw [← h]
          exact List.length_pos.mpr hxs
        rw [batched_cons xs b hxs (Nat.pos_of_ne_zero hb),
          batched_cons ys b hys (Nat.pos_of_ne_zero hb), List.map_cons, List.map_cons,
          ih (xs.drop b).length ?_ (xs.drop b) (ys.drop b) (by simp [List.length_drop, h]) rfl]
        · simp [List.length_take, h]
        · have : 0 < xs.length := List.length_pos.mpr hxs
          simp only [List.length_drop]
          omega

theorem batched_length_congr (b : Nat) (xs : List α) (ys : List β)
    (h : xs.length = ys.length) :
    (batched xs b).length = (batched ys b).length := by
  have := congrArg List.length (batched_map_length_congr b xs ys h)
  simpa using this

/-- **C6.**  For every list and every batch size ≥ 1: the batches of
`batched`, concatenated in order, equal the original list; every batch
except possibly the last has exactly the configured size; and the last
batch is non-empty and no larger than the configured size. -/
theorem claim_C6_batched_partition (seq : List α) (b : Nat) (hb : 1 ≤ b) :
    (batched seq b).flatten = seq ∧
    (∀ batch ∈ (batched seq b).dropLast, batch.length = b) ∧
    (∀ last, (batched seq b).getLast? = some last → last ≠ [] ∧ last.length ≤ b) :=
  ⟨batched_flatten b hb seq, batched_dropLast_length b hb seq, batched_getLast b hb seq⟩

/-- Witness for C6 at `seq = [1,2,3,4,5]`, `b = 2`. -/
theorem claim_C6_witness : (batched [1, 2, 3, 4, 5] 2).flatten = [1, 2, 3, 4, 5] :=
  (claim_C6_batched_partition [1, 2, 3, 4, 5] 2 (by decide)).1

/-! ## Lemmas about the batch-insert loop -/

theorem ingestLoop_length (total b : Nat) (l : List (List String × List Meta)) (acc : Nat) :
    (ingestLoop total b l acc).length = l.length := by
  induction l generalizing acc with
  | nil => rfl
  | cons tm rest ih => simp [ingestLoop, ih]

theorem ingestLoop_getElem? (total b : Nat) :
    ∀ (l : List (List String × List Meta)) (acc : Nat) (i : Nat),
      (ingestLoop total b l acc)[i]? =
        (l[i]?).map fun tm =>
          let ins := acc + ((l.take (i + 1)).map fun p => p.1.length).sum
          { t_batch := tm.1, m_batch := tm.2, insertedAfter := ins,
            printed := (ins % (b * 5) = 0) ∨ (ins = total) : InsertStep }
  | [], acc, i => by simp [ingestLoop]
  | tm :: rest, acc, i => by
      cases i with
      | zero => simp [ingestLoop]
      | succ i =>
          simp only [ingestLoop, List.getElem?_cons_succ,
            ingestLoop_getElem? total b rest (acc + tm.1.length) i, List.take_succ_cons,
            List.map_cons, List.sum_cons]
          congr 1
          funext tm
          simp only [Nat.add_assoc]

/-- **C9.**  During batch insertion for a target, the progress line is
printed after the `k`-th batch (`k = i + 1`, 1-based) if and only if `k` is
a multiple of 5 or the `k`-th batch is the final batch — in particular the
final batch is always reported.  `metas.length = texts.length` is the
lockstep invariant established by the chunking loop (claim C10). -/
theorem claim_C9_progress (texts : List String) (metas : List Meta) (b : Nat)
    (hb : 0 < b) (hlen : metas.length = texts.length) (i : Nat) (step : InsertStep)
    (hstep : (ingestBatches texts metas b)[i]? = some step) :
    step.printed = true ↔ ((i + 1) % 5 = 0 ∨ i + 1 = (batched texts b).length) := by
  have hAB : (batched texts b).length = (batched metas b).length :=
    batched_length_congr b texts metas hlen.symm
  rw [ingestBatches, ingestLoop_getElem?] at hstep
  rcases hzi : ((batched texts b).zip (batched metas b))[i]? with _ | tm
  · rw [hzi] at hstep
    simp at hstep
  · rw [hzi] at hstep
    simp only [Option.map_some', Option.some.injEq] at hstep
    have hi : i < ((batched texts b).zip (batched metas b)).length :=
      (List.getElem?_eq_some_iff.mp hzi).1
    rw [List.length_zip, hAB, Nat.min_self, ← hAB] at hi
    have hfst : ((batched texts b).zip (batched metas b)).map Prod.fst = batched texts b :=
      List.map_fst_zip _ _ (le_of_eq hAB)
    have hS : ((((batched texts b).zip (batched metas b)).take (i + 1)).map
          fun p => p.1.length).sum = min ((i + 1) * b) texts.length := by
      have h1 : ((((batched texts b).zip (batched metas b)).take (i + 1)).map
            fun p => p.1.length) = ((batched texts b).take (i + 1)).map List.length := by
        rw [List.map_take, List.map_take]
        congr 1
        rw [show (fun p : List String × List Meta => p.1.length) =
            List.length ∘ Prod.fst from rfl, ← List.map_map, hfst]
      rw [h1, ← List.length_flatten, batched_take_flatten b hb, List.length_take]
    rw [← hstep]
    simp only [Nat.zero_add, decide_eq_true_eq, hS]
    by_cases hfin : i + 1 = (batched texts b).length
    · have htot : texts.length ≤ (i + 1) * b :=
        batched_length_le b hb texts (i + 1) (le_of_eq hfin.symm)
      rw [Nat.min_eq_right htot]
      exact iff_of_true (Or.inr rfl) (Or.inr hfin)
    · have hlt2 : i + 1 < (batched texts b).length := lt_of_le_of_ne hi hfin
      have hltb : (i + 1) * b < texts.length :=
        (batched_lt_length_iff b hb texts (i + 1)).mp hlt2
      rw [Nat.min_eq_left (le_of_lt hltb)]
      have hmod : (i + 1) * b % (b * 5) = b * ((i + 1) % 5) := by
        rw [Nat.mul_comm (i + 1) b, Nat.mul_mod_mul_left]
      constructor
      · rintro (h0 | htot)
        · rw [hmod] at h0
          rcases Nat.mul_eq_zero.mp h0 with hb0 | h5

          · omega
          · exact Or.inl h5
        · exact absurd htot (Nat.ne_of_lt hltb)
      · rintro (h5 | hfin')
        · rw [hmod, h5, Nat.mul_zero]
          exact Or.inl rfl
        · exact absurd hfin' hfin

/-- Evaluation of `batched` on a one-element list with size 1 (used to
instantiate theorems about the insert loop on concrete data). -/
theorem batched_single (a : α) : batched [a] 1 = [[a]] := by
  rw [batched_cons [a] 1 (by simp) Nat.one_pos]
  simp [batched_nil]

/-- Evaluation of the insert loop on one batch of one chunk. -/
theorem ingestBatches_single :
    ingestBatches ["a"] [([] : Meta)] 1 =
      [{ t_batch := ["a"], m_batch := [[]], insertedAfter := 1, printed := true }] := by
  rw [ingestBatches, batched_single, batched_single]
  rfl

/-- Witness for C9: with one chunk and batch size 1, the single (hence
final) batch is reported. -/
theorem claim_C9_witness :
    ({ t_batch := ["a"], m_batch := [[]], insertedAfter := 1, printed := true } :
      InsertStep).printed = true :=
  (claim_C9_progress ["a"] [[]] 1 (by decide) (by decide) 0 _
      (by rw [ingestBatches_single]; rfl)).mpr
    (Or.inr (by rw [batched_single]; rfl))

/-! ## The loaders: fragment invariants -/

/-- **C2.**  Every fragment any loader emits has non-empty trimmed text and
metadata carrying `source`; PDF fragments carry `page` equal to the page's
1-based position; fragments of a top-level JSON array carry `item` equal to
the element's 0-based position; `.txt`/`.md` fragments and non-list JSON
fragments carry neither `page` nor `item`. -/
theorem claim_C2_fragment_invariants :
    (∀ path pages fr, fr ∈ read_pdf path pages →
        pyStrip fr.1 ≠ [] ∧ fr.2.lookup "source" = some (.str path) ∧
        fr.2.lookup "item" = none ∧
        ∃ i, i < pages.length ∧ fr.2.lookup "page" = some (.nat (i + 1)) ∧
          (pages.getD i none).getD "" = fr.1) ∧
    (∀ path text fr, fr ∈ read_txt path text →
        pyStrip fr.1 ≠ [] ∧ fr.2.lookup "source" = some (.str path) ∧
        fr.2.lookup "page" = none ∧ fr.2.lookup "item" = none) ∧
    (∀ path parsed fr, fr ∈ read_json path parsed →
        pyStrip fr.1 ≠ [] ∧ fr.2.lookup "source" = some (.str path) ∧
        fr.2.lookup "page" = none) ∧
    (∀ path text fr, fr ∈ read_json path (.ok (.other text)) →
        fr.2.lookup "item" = none) ∧
    (∀ path elems fr, fr ∈ read_json path (.ok (.arr elems)) →
        ∃ i, i < elems.length ∧ fr.2.lookup "item" = some (.nat i) ∧
          elems.getD i none = some fr.1) := by
  refine ⟨?_, ?_, ?_, ?_, ?_⟩
  · intro path pages fr hfr
    rw [read_pdf, List.mem_filterMap] at hfr
    obtain ⟨⟨i, pg⟩, hmem, hres⟩ := hfr
    simp only at hres
    split at hres
    · rename_i hst
      rw [Option.some.injEq] at hres
      subst hres
      refine ⟨hst, rfl, rfl, i, ?_, rfl, ?_⟩
      · exact (List.getElem?_eq_some_iff.mp (List.mk_mem_enum_iff_getElem?.mp hmem)).1
      · rw [List.getD_eq_getElem?_getD, List.mk_mem_enum_iff_getElem?.mp hmem]
        rfl
    · exact absurd hres (by simp)
  · intro path text fr hfr
    rw [read_txt] at hfr
    split at hfr
    · rename_i hst
      rw [List.mem_singleton] at hfr
      subst hfr
      exact ⟨hst, rfl, rfl, rfl⟩
    · exact absurd hfr (by simp)
  · intro path parsed fr hfr
    match parsed with
    | .error msg => exact absurd hfr (by simp [read_json])
    | .ok (.arr elems) =>
        rw [read_json, List.mem_filterMap] at hfr
        obtain ⟨⟨i, obj⟩, hmem, hres⟩ := hfr
        match obj with
        | none => exact absurd hres (by simp)
        | some text =>
            simp only at hres
            split at hres
            · rename_i hst
              rw [Option.some.injEq] at hres
              subst hres
              exact ⟨hst, rfl, rfl⟩
            · exact absurd hres (by simp)
    | .ok (.other text) =>
        rw [read_json] at hfr
        split at hfr
        · rename_i hst
          rw [List.mem_singleton] at hfr
          subst hfr
          exact ⟨hst, rfl, rfl⟩
        · exact absurd hfr (by simp)
  · intro path text fr hfr
    rw [read_json] at hfr
    split at hfr
    · rw [List.mem_singleton] at hfr
      subst hfr
      rfl
    · exact absurd hfr (by simp)
  · intro path elems fr hfr
    rw [read_json, List.mem_filterMap] at hfr
    obtain ⟨⟨i, obj⟩, hmem, hres⟩ := hfr
    match obj with
    | none => exact absurd hres (by simp)
    | some text =>
        simp only at hres
        split at hres
        · rename_i hst
          rw [Option.some.injEq] at hres
          subst hres
          refine ⟨i, ?_, rfl, ?_⟩
          · exact (List.getElem?_eq_some_iff.mp (List.mk_mem_enum_iff_getElem?.mp hmem)).1
          · rw [List.getD_eq_getElem?_getD, List.mk_mem_enum_iff_getElem?.mp hmem]
            rfl
        · exact absurd hres (by simp)

/-- Witness for C2: a one-page PDF fragment, checked for its `source` and
`page` metadata. -/
theorem claim_C2_witness :
    (([("source", MVal.str "d/a.pdf"), ("page", MVal.nat 1)] : Meta).lookup "source" =
      some (MVal.str "d/a.pdf")) :=
  (claim_C2_fragment_invariants.1 "d/a.pdf" [some "hi"]
      ("hi", [("source", MVal.str "d/a.pdf"), ("page", MVal.nat 1)]) (by decide)).2.1

/-- **C7.**  `read_json` on a top-level array of `N` elements yields at
most `N` fragments, each carrying `item` equal to its 0-based array
position; an element whose serialization raised is skipped without
affecting the other elements (every serializable element with non-blank
text still appears, at its original index); a file that fails to parse
yields zero fragments without raising; a non-list document yields exactly
one fragment whose metadata has `source` and no `item` key. -/
theorem claim_C7_read_json (path : String) :
    (∀ msg, read_json path (.error msg) = []) ∧
    (∀ elems,
      (read_json path (.ok (.arr elems))).length ≤ elems.length ∧
      (∀ fr ∈ read_json path (.ok (.arr elems)),
        ∃ i, i < elems.length ∧ fr.2.lookup "item" = some (.nat i) ∧
          elems.getD i none = some fr.1) ∧
      (∀ i t, elems[i]? = some (some t) → pyStrip t ≠ [] →
        (t, [("source", MVal.str path), ("item", MVal.nat i)]) ∈
          read_json path (.ok (.arr elems)))) ∧
    (∀ text, pyStrip text ≠ [] →
      read_json path (.ok (.other text)) = [(text, [("source", MVal.str path)])] ∧
      ([("source", MVal.str path)] : Meta).lookup "source" = some (.str path) ∧
      ([("source", MVal.str path)] : Meta).lookup "item" = none) := by
  refine ⟨fun msg => rfl, ?_, ?_⟩
  · intro elems
    refine ⟨?_, ?_, ?_⟩
    · rw [read_json]
      calc (elems.enum.filterMap _).length ≤ elems.enum.length :=
            List.length_filterMap_le _ _
        _ = elems.length := List.enum_length
    · intro fr hfr
      rw [read_json, List.mem_filterMap] at hfr
      obtain ⟨⟨i, obj⟩, hmem, hres⟩ := hfr
      match obj with
      | none => exact absurd hres (by simp)
      | some text =>
          simp only at hres
          split at hres
          · rename_i hst
            rw [Option.some.injEq] at hres
            subst hres
            refine ⟨i, ?_, rfl, ?_⟩
            · exact (List.getElem?_eq_some_iff.mp (List.mk_mem_enum_iff_getElem?.mp hmem)).1
            · rw [List.getD_eq_getElem?_getD, List.mk_mem_enum_iff_getElem?.mp hmem]
              rfl
          · exact absurd hres (by simp)
    · intro i t hit hst
      rw [read_json, List.mem_filterMap]
      refine ⟨(i, some t), List.mk_mem_enum_iff_getElem?.mpr hit, ?_⟩
      simp only [hst, ne_eq, not_false_iff, if_pos]
  · intro text hst
    rw [read_json, if_pos hst]
    exact ⟨rfl, rfl, rfl⟩

/-- Witness for C7: a non-list JSON document (`{"a":1}` serialized) yields
exactly one fragment with only `source` metadata. -/
theorem claim_C7_witness :
    read_json "d/a.json" (.ok (.other "\x7b\"a\": 1\x7d")) =
      [("\x7b\"a\": 1\x7d", [("source", MVal.str "d/a.json")])] :=
  ((claim_C7_read_json "d/a.json").2.2 "\x7b\"a\": 1\x7d" (by decide)).1

/-! ## `load_documents`: per-file error isolation -/

/-- **C3, counterexample.**  For a `.json` file whose read raises (here an
`OSError`, modelled by `badJsonFile.jsonRead = .error …`), `load_documents`
prints no warning at all: the exception is swallowed inside `read_json`.
This refutes the claim that a warning including the file path is printed
whenever reading a file raises. -/
theorem claim_C3_counterexample :
    loaderRaises badJsonFile = true ∧
    (load_documents true [badJsonFile]).1 = [] ∧
    (load_documents true [badJsonFile]).2 = [] :=
  ⟨rfl, rfl, rfl⟩

theorem load_documents_append (xs ys : List SrcFile) :
    load_documents true (xs ++ ys) =
      ((load_documents true xs).1 ++ (load_documents true ys).1,
       (load_documents true xs).2 ++ (load_documents true ys).2) := by
  induction xs with
  | nil => simp [load_documents]
  | cons f fs ih => simp [load_documents, ih]

theorem load_documents_cons (f : SrcFile) (fs : List SrcFile) :
    load_documents true (f :: fs) =
      ((processFile f).1 ++ (load_documents true fs).1,
       (processFile f).2 ++ (load_documents true fs).2) := by
  simp [load_documents]

theorem processFile_raises (f : SrcFile) (h : loaderRaises f = true) :
    (processFile f).1 = [] ∧
    (pyLower (pathSuffix f.path) ≠ ".json".data →
      ∃ e, (processFile f).2 = [warnLine f.path e]) ∧
    (pyLower (pathSuffix f.path) = ".json".data → (processFile f).2 = []) := by
  rw [loaderRaises] at h
  simp only [decide_eq_true_eq] at h
  obtain ⟨hfile, hdisj⟩ := h
  rw [processFile, if_neg (by simp [hfile])]
  rcases hdisj with ⟨hsfx, hread⟩ | ⟨hsfx, hread⟩ | ⟨hsfx, hread⟩
  · rw [if_pos hsfx]
    match hr : f.pdfRead with
    | .ok pages => rw [hr] at hread; exact Bool.noConfusion hread
    | .error e =>
        refine ⟨rfl, fun _ => ⟨e, rfl⟩, fun hj => ?_⟩
        rw [hsfx] at hj
        exact absurd hj (by decide)
  · rw [if_neg (by rcases hsfx with h | h <;> rw [h] <;> decide), if_pos hsfx]
    match hr : f.textRead with
    | .ok t => rw [hr] at hread; exact Bool.noConfusion hread
    | .error e =>
        refine ⟨rfl, fun _ => ⟨e, rfl⟩, fun hj => ?_⟩
        rcases hsfx with h | h <;> rw [h] at hj <;> exact absurd hj (by decide)
  · rw [if_neg (by rw [hsfx]; decide),
      if_neg (by rw [hsfx]; exact by decide), if_pos hsfx]
    match hr : f.jsonRead with
    | .ok d => rw [hr] at hread; exact Bool.noConfusion hread
    | .error e =>
        refine ⟨rfl, fun hne => absurd hsfx hne, fun _ => ?_⟩
        rw [read_json]

/-- **C3 (amended).**  If processing a file raises an exception, the
exception does not propagate out of `load_documents`: the file contributes
zero fragments and every other file's fragments are returned in
enumeration order.  A warning naming the file is printed for `.pdf`,
`.txt` and `.md` files; for `.json` files, the exception is swallowed
inside `read_json` and no warning is printed. -/
theorem claim_C3_amended (xs ys : List SrcFile) (f : SrcFile)
    (h : loaderRaises f = true) :
    (load_documents true (xs ++ f :: ys)).1 =
      (load_documents true xs).1 ++ (load_documents true ys).1 ∧
    (load_documents true (xs ++ f :: ys)).2 =
      (load_documents true xs).2 ++ (processFile f).2 ++ (load_documents true ys).2 ∧
    (pyLower (pathSuffix f.path) ≠ ".json".data →
      ∃ e, (processFile f).2 = [warnLine f.path e]) ∧
    (pyLower (pathSuffix f.path) = ".json".data → (processFile f).2 = []) := by
  obtain ⟨hzero, hwarn, hjson⟩ := processFile_raises f h
  rw [load_documents_append, load_documents_cons]
  refine ⟨?_, ?_, hwarn, hjson⟩
  · rw [hzero]
    simp
  · simp [List.append_assoc]

/-- Witness for C3 (amended): a broken `.pdf` between good files is
skipped, the good `.txt` fragments survive. -/
theorem claim_C3_witness :
    (load_documents true ([helloTxtFile] ++ badPdfFile :: [])).1 =
      (load_documents true [helloTxtFile]).1 ++ (load_documents true []).1 :=
  (claim_C3_amended [helloTxtFile] [] badPdfFile (by decide)).1

/-! ## The Elasticsearch client configuration -/

/-- **C4.**  `create_es_client` raises exactly when at least one of
`ES_URL`, `ES_USER`, `ES_PASS` is unset or empty; a constructed client
always carries a non-empty basic-auth user and password (never anonymous
or unauthenticated access). -/
theorem claim_C4_credentials (env : Env) (ext : TlsExternal) :
    ((create_es_client env ext).isOk = false ↔
      (strFalsy env.ES_URL ∨ strFalsy env.ES_USER ∨ strFalsy env.ES_PASS)) ∧
    (∀ c, create_es_client env ext = .ok c →
      c.basic_auth.1 ≠ "" ∧ c.basic_auth.2 ≠ "") := by
  rw [create_es_client]
  by_cases h : strFalsy env.ES_URL ∨ strFalsy env.ES_USER ∨ strFalsy env.ES_PASS
  · rw [if_pos h]
    exact ⟨iff_of_true rfl h, fun c hc => Except.noConfusion hc⟩
  · rw [if_neg h]
    refine ⟨iff_of_false (by simp [Except.isOk, Except.toBool]) h, fun c hc => ?_⟩
    simp only [not_or, strFalsy, decide_eq_true_eq] at h
    rw [Except.ok.injEq] at hc
    subst hc
    exact ⟨h.2.1, h.2.2⟩

/-- Witness for C4: with all three variables set, a client is constructed
and it carries the configured credentials. -/
theorem claim_C4_witness :
    (({ hosts := ["https://es.example:9200"], basic_auth := ("elastic", "pw"),
        request_timeout := 60,
        tls := { verify_certs := false, ssl_show_warn := some true } } :
      EsClient).basic_auth.1 ≠ "") :=
  ((claim_C4_credentials c1World.env c1World.tls).2 _ (by rfl)).1

/-- **C5.**  `_resolve_tls_kwargs` resolves the TLS policy in priority
order: verification disabled unless `ES_VERIFY` is `"true"`
(case-insensitive, default `"false"`); otherwise an existing configured CA
file wins; otherwise a configured base64 CA is materialised to a temp file
(falling back to verification without explicit CA when decoding fails);
otherwise verification uses the platform trust store (no explicit CA). -/
theorem claim_C5_tls_policy (env : Env) (ext : TlsExternal) :
    (pyLower (env.ES_VERIFY.getD "false").data ≠ "true".data →
      _resolve_tls_kwargs env ext =
        { verify_certs := false, ssl_show_warn := some true }) ∧
    (pyLower (env.ES_VERIFY.getD "false").data = "true".data →
      (¬ strFalsy env.ES_CA_PATH → ext.pathExists (env.ES_CA_PATH.getD "") →
        _resolve_tls_kwargs env ext =
          { verify_certs := true, ca_certs := some (env.ES_CA_PATH.getD "") }) ∧
      ((strFalsy env.ES_CA_PATH ∨ ¬ ext.pathExists (env.ES_CA_PATH.getD "")) →
        (¬ strFalsy env.ES_CA_BASE64 →
          (ext.b64DecodeOk (env.ES_CA_BASE64.getD "") →
            _resolve_tls_kwargs env ext =
              { verify_certs := true, ca_certs := some ext.tmpName }) ∧
          (¬ ext.b64DecodeOk (env.ES_CA_BASE64.getD "") →
            _resolve_tls_kwargs env ext = { verify_certs := true })) ∧
        (strFalsy env.ES_CA_BASE64 →
          _resolve_tls_kwargs env ext = { verify_certs := true }))) := by
  rw [_resolve_tls_kwargs]
  constructor
  · intro hv
    rw [if_pos]
    simpa using hv
  · intro hv
    rw [if_neg (by simpa using hv)]
    constructor
    · intro hpath hexists
      rw [if_pos ⟨hpath, hexists⟩]
    · intro hnot
      have hcond : ¬ (¬ strFalsy env.ES_CA_PATH ∧ ext.pathExists (env.ES_CA_PATH.getD "")) := by
        rcases hnot with h | h
        · exact fun hc => hc.1 h
        · exact fun hc => h hc.2
      rw [if_neg hcond]
      constructor
      · intro hb64
        rw [if_pos hb64]
        constructor
        · intro hdec
          rw [if_pos hdec]
        · intro hdec
          rw [if_neg hdec]
      · intro hb64
        rw [if_neg (by simpa using hb64)]

/-- Witness for C5: `ES_VERIFY` unset defaults to disabled verification. -/
theorem claim_C5_witness :
    _resolve_tls_kwargs c1World.env c1World.tls =
      { verify_certs := false, ssl_show_warn := some true } :=
  (claim_C5_tls_policy c1World.env c1World.tls).1 (by decide)

/-! ## Overlay resolution and the run skeleton -/

/-- **C8.**  `list_overlay_dirs` returns exactly the immediate
subdirectories of the base directory (those `iterdir` entries with
`is_dir()`), sorted by name, with no recursion below one level; a base
directory without subdirectories makes the run print the informational
message, perform zero insert calls and exit successfully; a missing base
directory is a hard failure before any indexing work. -/
theorem claim_C8_overlay_resolution :
    (∀ entries : List DirEntry,
        (list_overlay_dirs entries).Sorted (· ≤ ·) ∧
        List.Perm (list_overlay_dirs entries) ((entries.filter (·.isDir)).map (·.name))) ∧
    (∀ w : World, (pyParseNat (w.env.BATCH_SIZE.getD "128").data).isSome →
        w.baseDirExists = false →
        main w = .error "FileNotFoundError: Base de dados não existe") ∧
    (∀ w : World, (pyParseNat (w.env.BATCH_SIZE.getD "128").data).isSome →
        w.baseDirExists = true →
        w.baseEntries.filter (·.isDir) = [] →
        main w = .ok noOverlaysRun) := by
  refine ⟨?_, ?_, ?_⟩
  · intro entries
    exact ⟨List.sorted_insertionSort _ _, List.perm_insertionSort _ _⟩
  · intro w hbs hdir
    rw [main]
    rcases hp : pyParseNat (w.env.BATCH_SIZE.getD "128").data with _ | bs
    · rw [hp] at hbs
      exact absurd hbs (by simp)
    · rw [hdir]
      rfl
  · intro w hbs hdir hsub
    have hov : list_overlay_dirs w.baseEntries = [] := by
      rw [list_overlay_dirs, hsub]
      rfl
    rw [main]
    rcases hp : pyParseNat (w.env.BATCH_SIZE.getD "128").data with _ | bs
    · rw [hp] at hbs
      exact absurd hbs (by simp)
    · rw [hdir, hov]
      rfl

/-- Witness for C8: the empty base directory exits successfully with no
inserts, and the missing base directory fails hard. -/
theorem claim_C8_witness :
    main emptyBaseWorld = .ok noOverlaysRun ∧
    main missingBaseWorld = .error "FileNotFoundError: Base de dados não existe" :=
  ⟨claim_C8_overlay_resolution.2.2 emptyBaseWorld (by rfl) rfl rfl,
   claim_C8_overlay_resolution.2.1 missingBaseWorld (by rfl) rfl⟩

/-- **C1** (code bug).  In multi-index mode the code cannot insert anything
into the overlay-named index: `main` calls
`create_vector_store(es_client, embeddings, index_name)` with three
positional arguments while the function is defined with two, so the first
overlay that yields fragments raises `TypeError`; moreover the function as
defined binds the store to `ES_INDEX` (default `"your_index_name"`),
not to the overlay name (`"notes"` here). -/
theorem claim_C1_code_bug :
    main_call_argCount ≠ create_vector_store_paramCount ∧
    main c1World =
      .error "TypeError: create_vector_store() takes 2 positional arguments but 3 were given" ∧
    (create_vector_store c1World.env).1 = "your_index_name" ∧
    (create_vector_store c1World.env).1 ≠ "notes" :=
  ⟨by decide, rfl, rfl, by decide⟩

/-! ## The chunking loop -/

theorem chunkPhase_go (split : String → List String) :
    ∀ (pairs : List Fragment) (acc : List String × List Meta),
      pairs.foldl
        (fun acc tm => (acc.1 ++ split tm.1, acc.2 ++ (split tm.1).map fun _ => tm.2)) acc =
      (acc.1 ++ (chunkPairs split pairs).map Prod.fst,
       acc.2 ++ (chunkPairs split pairs).map Prod.snd)
  | [], acc => by simp [chunkPairs]
  | tm :: rest, acc => by
      have hfst : (split tm.1).map (Prod.fst ∘ fun c => (c, tm.2)) = split tm.1 := by
        simp only [Function.comp_def, List.map_id']
      have hsnd : (split tm.1).map (Prod.snd ∘ fun c => (c, tm.2)) =
          (split tm.1).map fun _ => tm.2 := by
        simp only [Function.comp_def]
      rw [List.foldl_cons, chunkPhase_go split rest _]
      simp only [chunkPairs, List.flatMap_cons, List.map_append, List.map_map, hfst, hsnd,
        List.append_assoc]

theorem chunkPhase_eq (split : String → List String) (pairs : List Fragment) :
    chunkPhase split pairs =
      ((chunkPairs split pairs).map Prod.fst, (chunkPairs split pairs).map Prod.snd) := by
  rw [chunkPhase, chunkPhase_go]
  simp

/-- **C10.**  The chunking loop builds `texts` and `metas` in lockstep:
they are the two projections of the chunk-with-provenance list, so they
have equal length and the metadata at position `j` is exactly the metadata
of the fragment the text at position `j` was chunked from; batching both
with the same size and zipping therefore pairs corresponding batches, so
every `add_texts` call receives texts and metadatas of equal length. -/
theorem claim_C10_lockstep (split : String → List String) (pairs : List Fragment) (b : Nat) :
    (chunkPhase split pairs).1 = (chunkPairs split pairs).map Prod.fst ∧
    (chunkPhase split pairs).2 = (chunkPairs split pairs).map Prod.snd ∧
    (chunkPhase split pairs).1.length = (chunkPhase split pairs).2.length ∧
    (batched (chunkPhase split pairs).1 b).zip (batched (chunkPhase split pairs).2 b) =
      (batched (chunkPairs split pairs) b).map (fun ch => (ch.map Prod.fst, ch.map Prod.snd)) ∧
    (∀ p ∈ (batched (chunkPhase split pairs).1 b).zip (batched (chunkPhase split pairs).2 b),
      p.1.length = p.2.length) := by
  have h := chunkPhase_eq split pairs
  have h1 : (chunkPhase split pairs).1 = (chunkPairs split pairs).map Prod.fst := by
    rw [h]
  have h2 : (chunkPhase split pairs).2 = (chunkPairs split pairs).map Prod.snd := by
    rw [h]
  have hzip : (batched (chunkPhase split pairs).1 b).zip (batched (chunkPhase split pairs).2 b) =
      (batched (chunkPairs split pairs) b).map (fun ch => (ch.map Prod.fst, ch.map Prod.snd)) := by
    rw [h1, h2, batched_map, batched_map, List.zip_map']
  refine ⟨h1, h2, by simp [h1, h2], hzip, ?_⟩
  intro p hp
  rw [hzip, List.mem_map] at hp
  obtain ⟨ch, _, hc⟩ := hp
  subst hc
  simp

/-- Witness for C10 on a concrete two-fragment input. -/
theorem claim_C10_witness :
    (chunkPhase (fun t => [t]) [("a", []), ("b", [("source", MVal.str "s")])]).1.length =
      (chunkPhase (fun t => [t]) [("a", []), ("b", [("source", MVal.str "s")])]).2.length :=
  (claim_C10_lockstep (fun t => [t]) [("a", []), ("b", [("source", MVal.str "s")])] 1).2.2.1

end Ingest
